import Mathlib

/- Verification development for the DentraOS backend core: the durable
event-dispatch engine (`dental_agents/db.py`) and the appointment
scheduling / conflict-resolution engine
(`dental_agents/agents/appointment_agent.py`).

The database tables are modelled as Lean lists of rows; `NOW()` is an
explicit `now : Nat` parameter (absolute seconds for the queue model,
absolute minutes for the scheduling model).  Optional SQL columns that the
production schema exposes (`available_at`, `locked_until`, `locked_by`,
`locked_at`, `priority`, `attempts`, `max_attempts`, `last_error`,
`processed_at`) are modelled as present; a NULL integer column that the
source coerces with `int(x or 0)` is encoded as `0`. -/

namespace DentraOS

/- ===================================================================
Section 1: string helpers shared by both modules.
Python `str.strip` / `str.upper` / `str.replace` / slicing are modelled
character-wise so that every definition evaluates by kernel reduction.
=================================================================== -/

/-- Characters removed by Python `str.strip()` (the whitespace the status
and procedure-type strings can contain). -/
def isStripChar (c : Char) : Bool :=
  c = ' ' || c = '\t' || c = '\n' || c = '\r'

/-- Python `str.strip()`. -/
def stripStr (s : String) : String :=
  String.mk (((s.data.dropWhile isStripChar).reverse.dropWhile isStripChar).reverse)

/-- Python `str.upper()` (ASCII, which is all the source feeds it). -/
def toUpperStr (s : String) : String :=
  String.mk (s.data.map Char.toUpper)

/-- Python `str.replace(a, b)` for single characters. -/
def replaceChar (a b : Char) (s : String) : String :=
  String.mk (s.data.map (fun c => if c = a then b else c))

/-- Python slicing `s[:n]`. -/
def strTake (s : String) (n : Nat) : String :=
  String.mk (s.data.take n)

/- ===================================================================
Section 2: the event store (db.py).

`agent_events` rows.  `maxAttempts = 0` encodes SQL NULL / unset, exactly
as the source's `int(r.get("max_attempts") or 0)` and the truthiness test
`if max_attempts and ...` conflate NULL, absent column and 0.
=================================================================== -/

structure EventRow where
  id : Nat
  eventType : String
  payloadJson : String
  status : String
  priority : Int
  attempts : Nat
  maxAttempts : Nat
  availableAt : Option Nat
  lockedBy : Option String
  lockedUntil : Option Nat
  lockedAt : Option Nat
  lastError : Option String
  processedAt : Option Nat
deriving DecidableEq, Repr

/-- The row data `claim_next_event` returns to the worker. -/
structure ClaimedEvent where
  id : Nat
  eventType : String
  payloadJson : String
deriving DecidableEq, Repr

/-- The WHERE clause of the claiming SELECT:
`status IN (pending_states) AND (available_at IS NULL OR available_at <= NOW())
AND (locked_until IS NULL OR locked_until <= NOW())`.
`pendingStates` is the dynamically computed list (`["NEW"]`, plus
`"PENDING"` when the schema enum exposes the legacy alias). -/
def eligibleB (pendingStates : List String) (now : Nat) (r : EventRow) : Bool :=
  pendingStates.contains r.status &&
  (match r.availableAt with | none => true | some t => decide (t ≤ now)) &&
  (match r.lockedUntil with | none => true | some t => decide (t ≤ now))

/-- `ORDER BY priority DESC, id ASC`: row `a` sorts strictly before row `b`. -/
def claimBefore (a b : EventRow) : Bool :=
  decide (b.priority < a.priority) ||
  (a.priority == b.priority && decide (a.id < b.id))

/-- `LIMIT 1` on the ordered result set: the minimum of the list under
`claimBefore` (the first row the ordered query would return). -/
def pickFirst (l : List EventRow) : Option EventRow :=
  l.foldl
    (fun acc r =>
      match acc with
      | none => some r
      | some b => if claimBefore r b then some r else some b)
    none

/-- The SELECT phase of `claim_next_event` (a plain, non-locking read). -/
def selectNextEvent (pendingStates : List String) (now : Nat) (tbl : List EventRow) :
    Option EventRow :=
  pickFirst (tbl.filter (eligibleB pendingStates now))

/-- The SET list of the claiming UPDATE: `status=PROCESSING`,
`locked_by=worker`, `locked_until=NOW()+lock_seconds`,
`attempts=COALESCE(attempts,0)+1`, `last_error=NULL`, `locked_at=NOW()`. -/
def applyClaimUpdate (now : Nat) (workerId : String) (lockSeconds : Nat) (r : EventRow) :
    EventRow :=
  { r with
    status := "PROCESSING"
    lockedBy := some workerId
    lockedUntil := some (now + lockSeconds)
    attempts := r.attempts + 1
    lastError := none
    lockedAt := some now }

/-- The UPDATE phase of `claim_next_event`:
`UPDATE agent_events SET ... WHERE id=%s` — by id only, with no status
recheck and no row lock held from the SELECT. -/
def claimUpdateById (now : Nat) (workerId : String) (lockSeconds : Nat) (eventId : Nat)
    (tbl : List EventRow) : List EventRow :=
  tbl.map (fun x => if x.id == eventId then applyClaimUpdate now workerId lockSeconds x else x)

/-- `claim_next_event`: SELECT one candidate, then UPDATE it by id. -/
def claimNextEvent (pendingStates : List String) (now : Nat) (workerId : String)
    (lockSeconds : Nat) (tbl : List EventRow) : Option ClaimedEvent × List EventRow :=
  match selectNextEvent pendingStates now tbl with
  | none => (none, tbl)
  | some r =>
      (some ⟨r.id, r.eventType, r.payloadJson⟩, claimUpdateById now workerId lockSeconds r.id tbl)

/-- `mark_done`: `status=DONE, locked_by=NULL, locked_until=NULL,
locked_at=NULL, processed_at=NOW(), last_error=NULL WHERE id=%s`. -/
def markDone (now : Nat) (eventId : Nat) (tbl : List EventRow) : List EventRow :=
  tbl.map (fun x =>
    if x.id == eventId then
      { x with
        status := "DONE"
        lockedBy := none
        lockedUntil := none
        lockedAt := none
        processedAt := some now
        lastError := none }
    else x)

/-- The requeue-or-dead decision of `mark_failed`:
`should_dead = max_attempts and attempts is not None and attempts >= max_attempts`,
where the row is looked up by `SELECT attempts, max_attempts ... WHERE id=%s LIMIT 1`. -/
def markFailedShouldDead (eventId : Nat) (tbl : List EventRow) : Bool :=
  match tbl.find? (fun x => x.id == eventId) with
  | some r => r.maxAttempts != 0 && decide (r.maxAttempts ≤ r.attempts)
  | none => false

/-- `mark_failed`: requeue to the pending status with a delayed
`available_at` while `attempts < max_attempts`, otherwise `DEAD` (when the
status enum has it, `hasDead`) or `FAILED`; the lease is cleared and the
error text recorded (truncated to 2000 characters) either way;
`available_at` is only touched on the requeue branch. -/
def markFailed (now : Nat) (hasDead : Bool) (eventId : Nat) (errText : String)
    (retryDelaySec : Nat) (tbl : List EventRow) : List EventRow :=
  let shouldDead := markFailedShouldDead eventId tbl
  let statusToSet := if shouldDead then (if hasDead then "DEAD" else "FAILED") else "NEW"
  tbl.map (fun x =>
    if x.id == eventId then
      { x with
        status := statusToSet
        lockedBy := none
        lockedUntil := none
        lockedAt := none
        lastError := some (strTake errText 2000)
        availableAt := if shouldDead then x.availableAt else some (now + retryDelaySec) }
    else x)

/- ===================================================================
Section 3: idempotency ledger and enqueue (db.py).
=================================================================== -/

structure LedgerEntry where
  lockKey : String
  lockedBy : String
  expiresAt : Nat
  createdAt : Nat
deriving DecidableEq, Repr

structure QueueState where
  events : List EventRow
  ledger : List LedgerEntry
  nextId : Nat
deriving DecidableEq, Repr

/-- `_insert_idempotency_lock`: inserts `(lock_key[:190], locked_by,
NOW()+ttl_hours, NOW())` and returns `False` exactly when the INSERT hits
the unique constraint on `lock_key` — there is no purge of expired rows on
this path. -/
def insertIdempotencyLock (now : Nat) (key : String) (ttlHours : Nat) (lockedBy : String)
    (st : QueueState) : Bool × QueueState :=
  let k := strTake key 190
  if st.ledger.any (fun e => e.lockKey == k) then
    (false, st)
  else
    (true, { st with ledger := ⟨k, lockedBy, now + ttlHours * 3600, now⟩ :: st.ledger })

/-- The row `enqueue_event` inserts (fresh id, `attempts` at its column
default 0, `available_at = run_at` or `NOW()`). -/
def newEventRow (now : Nat) (eventType payloadJson : String) (priority : Int)
    (runAt : Option Nat) (maxAttempts : Nat) (eid : Nat) : EventRow :=
  { id := eid
    eventType := strTake eventType 64
    payloadJson := payloadJson
    status := "NEW"
    priority := priority
    attempts := 0
    maxAttempts := maxAttempts
    availableAt := some (runAt.getD now)
    lockedBy := none
    lockedUntil := none
    lockedAt := none
    lastError := none
    processedAt := none }

/-- `enqueue_event`: when a `dedupe_key` is supplied, first try the ledger
insert and return 0 (touching nothing else) if it fails; otherwise insert
the event row and return its id. -/
def enqueueEvent (now : Nat) (eventType payloadJson : String) (priority : Int)
    (runAt : Option Nat) (dedupeKey : Option String) (maxAttempts : Nat)
    (st : QueueState) : Nat × QueueState :=
  let ins := fun (st' : QueueState) =>
    (st'.nextId,
      { st' with
        events := st'.events ++ [newEventRow now eventType payloadJson priority runAt maxAttempts st'.nextId]
        nextId := st'.nextId + 1 })
  match dedupeKey with
  | none => ins st
  | some k =>
      let r := insertIdempotencyLock now k 24 "enqueue_event" st
      if r.1 then ins r.2 else (0, r.2)

/- ===================================================================
Section 4: the scheduling engine (appointment_agent.py).

Instants are absolute minutes; a calendar day `d` covers
`[d*1440, (d+1)*1440)`.  `appointments` rows carry `scheduled_date` as a
day index, `scheduled_time` / `scheduled_end_time` as minutes of day
(`none` = missing or unparseable), and `predicted_duration_min` with `0`
encoding NULL, matching `int(row.get(...) or 0)`.
=================================================================== -/

def minutesPerDay : Nat := 1440

/-- `WORKDAY_START = 09:00`. -/
def WORKDAY_START_MIN : Nat := 540

/-- `WORKDAY_END = 18:00`. -/
def WORKDAY_END_MIN : Nat := 1080

/-- `SLOT_STEP_MIN = 15`. -/
def SLOT_STEP_MIN : Nat := 15

structure Appt where
  id : Nat
  doctorId : Nat
  operatoryId : Option Nat
  scheduledDay : Nat
  scheduledTimeMin : Option Nat
  scheduledEndTimeMin : Option Nat
  predictedDurationMin : Nat
  status : String
deriving DecidableEq, Repr

/-- `_norm_status`: strip, upper-case, then map both `-` and space to `_`. -/
def normStatus (s : String) : String :=
  replaceChar ' ' '_' (replaceChar '-' '_' (toUpperStr (stripStr s)))

/-- `_is_final_status`. -/
def isFinalStatus (statusNorm : String) : Bool :=
  ["CANCELLED", "CANCELED", "COMPLETED", "NO_SHOW"].contains statusNorm

/-- `_overlaps`: the open-interval test `a_start < b_end and b_start < a_end`. -/
def overlapsB (aStart aEnd bStart bEnd : Nat) : Bool :=
  decide (aStart < bEnd) && decide (bStart < aEnd)

/-- Python truthiness of an optional integer (`if operatory_id:` /
`if exclude_appt_id:`): `None` and `0` are falsy. -/
def optTruthy (o : Option Nat) : Bool :=
  o.getD 0 != 0

/-- `_fetch_appt_datetime`: the appointment's start instant, when its
date/time fields parse. -/
def apptStartAbs (a : Appt) : Option Nat :=
  a.scheduledTimeMin.map (fun t => a.scheduledDay * minutesPerDay + t)

/-- `int(row.get("predicted_duration_min") or 0) or 30`. -/
def busyDuration (a : Appt) : Nat :=
  if a.predictedDurationMin == 0 then 30 else a.predictedDurationMin

/-- `_fetch_appt_end_datetime`: the stored `scheduled_end_time` on the same
day when present, else `start + duration`. -/
def apptEndAbs (a : Appt) (startAbs : Nat) : Nat :=
  match a.scheduledEndTimeMin with
  | some e => a.scheduledDay * minutesPerDay + e
  | none => startAbs + busyDuration a

structure Conflict where
  ctype : String
  withAppointmentId : Nat
  atAbs : Nat
  status : String
deriving DecidableEq, Repr

/-- The per-row body of the `_detect_conflicts` loops: skip final statuses,
skip rows without a parseable start, then report on open-interval overlap. -/
def conflictOf (targetStart targetEnd : Nat) (ctype : String) (row : Appt) : Option Conflict :=
  if isFinalStatus (normStatus row.status) then none
  else
    match apptStartAbs row with
    | none => none
    | some s =>
        if overlapsB targetStart targetEnd s (apptEndAbs row s) then
          some ⟨ctype, row.id, s, row.status⟩
        else none

/-- `_detect_conflicts`: all rows of the same doctor except the appointment
itself, then — when an operatory is given — a second pass over the rows of
the same operatory. -/
def detectConflicts (appts : List Appt) (apptId doctorId : Nat) (startAbs endAbs : Nat)
    (operatoryId : Option Nat) : List Conflict :=
  let docConflicts :=
    (appts.filter (fun r => r.doctorId == doctorId && r.id != apptId)).filterMap
      (conflictOf startAbs endAbs "DOCTOR")
  if optTruthy operatoryId then
    docConflicts ++
      (appts.filter (fun r => r.operatoryId == operatoryId && r.id != apptId)).filterMap
        (conflictOf startAbs endAbs "OPERATORY")
  else docConflicts

/-- Stable insertion used to model Python's `busy.sort(key=lambda x: x[0])`. -/
def insertWindow (w : Nat × Nat) : List (Nat × Nat) → List (Nat × Nat)
  | [] => [w]
  | v :: rest => if w.1 < v.1 then w :: v :: rest else v :: insertWindow w rest

def sortWindows : List (Nat × Nat) → List (Nat × Nat)
  | [] => []
  | w :: rest => insertWindow w (sortWindows rest)

/-- `_collect_busy_windows_for_day`: non-final appointments of the day for
the doctor (or the operatory, when one is given), excluding
`exclude_appt_id`, as `(start, end)` windows sorted by start. -/
def collectBusyWindowsForDay (appts : List Appt) (day doctorId : Nat)
    (operatoryId : Option Nat) (excludeApptId : Option Nat) : List (Nat × Nat) :=
  let rows := appts.filter (fun r =>
    r.scheduledDay == day &&
    (r.doctorId == doctorId || (optTruthy operatoryId && r.operatoryId == operatoryId)) &&
    (!optTruthy excludeApptId || r.id != excludeApptId.getD 0))
  let windows := rows.filterMap (fun row =>
    if isFinalStatus (normStatus row.status) then none
    else
      match apptStartAbs row with
      | none => none
      | some s => some (s, apptEndAbs row s))
  sortWindows windows

structure Slot where
  day : Nat
  startAbs : Nat
  endAbs : Nat
  durationMin : Nat
deriving DecidableEq, Repr

/-- The arguments of `_suggest_slots`. -/
structure SuggestParams where
  doctorId : Nat
  baseDay : Nat
  durationMin : Nat
  operatoryId : Option Nat
  excludeApptId : Option Nat
  limit : Nat
  daysAhead : Nat
  startTimeMin : Option Nat
  minStart : Option Nat
deriving Repr

/-- `if min_start_dt and candidate_start < min_start_dt` — the healing-floor
rejection inside `is_free`. -/
def beforeMinStart (minStart : Option Nat) (candStart : Nat) : Bool :=
  match minStart with
  | some m => decide (candStart < m)
  | none => false

/-- The `is_free` closure of `_suggest_slots`: the candidate's end must not
pass the working-day end, a candidate today must not be earlier than
`now + 2` minutes, it must not be earlier than `min_start_dt`, and it must
overlap no busy window. -/
def isFreeCandidate (now day endOfDay durationMin : Nat) (minStart : Option Nat)
    (busy : List (Nat × Nat)) (candStart : Nat) : Bool :=
  let candEnd := candStart + durationMin
  if endOfDay < candEnd then false
  else if day == now / minutesPerDay && decide (candStart < now + 2) then false
  else if beforeMinStart minStart candStart then false
  else !(busy.any (fun w => overlapsB candStart candEnd w.1 w.2))

/-- The stepping loop of `_suggest_slots`:
`while cur + duration <= end_of_day and len(out) < limit`, appending the
accepted candidates and advancing by `SLOT_STEP_MIN`.  The `fuel` argument
makes the recursion structural; it is called with more fuel than the loop
can ever consume. -/
def slotLoop (limit durationMin endOfDay day : Nat) (free : Nat → Bool) :
    Nat → Nat → List Slot → List Slot
  | 0, _, acc => acc
  | fuel + 1, cur, acc =>
      if cur + durationMin ≤ endOfDay ∧ acc.length < limit then
        slotLoop limit durationMin endOfDay day free fuel (cur + SLOT_STEP_MIN)
          (if free cur then acc ++ [⟨day, cur, cur + durationMin, durationMin⟩] else acc)
      else acc

/-- The initial candidate of a day: the working-day start, raised to the
requested `start_time` on day offset 0 only. -/
def dayInitStart (p : SuggestParams) (dayOffset : Nat) : Nat :=
  let day := p.baseDay + dayOffset
  let startOfDay := day * minutesPerDay + WORKDAY_START_MIN
  if dayOffset == 0 then
    match p.startTimeMin with
    | some st => max startOfDay (day * minutesPerDay + st)
    | none => startOfDay
  else startOfDay

/-- The working-day end instant of a day offset. -/
def dayEndAbs (p : SuggestParams) (dayOffset : Nat) : Nat :=
  (p.baseDay + dayOffset) * minutesPerDay + WORKDAY_END_MIN

/-- The busy windows `_suggest_slots` collects for a day offset. -/
def dayBusy (appts : List Appt) (p : SuggestParams) (dayOffset : Nat) : List (Nat × Nat) :=
  collectBusyWindowsForDay appts (p.baseDay + dayOffset) p.doctorId p.operatoryId p.excludeApptId

/-- `if min_start_dt and day < min_start_dt.date(): continue` — the day-skip
guard of the day loop. -/
def dayScanSkip (p : SuggestParams) (dayOffset : Nat) : Bool :=
  match p.minStart with
  | some m => decide (p.baseDay + dayOffset < m / minutesPerDay)
  | none => false

/-- One iteration of the day loop of `_suggest_slots`, starting (as every
iteration does until the loop breaks) from an empty accumulator: the day is
skipped when `min_start_dt` pins a later date, otherwise the stepping loop
runs over the working-hours window. -/
def dayScan (appts : List Appt) (now : Nat) (p : SuggestParams) (dayOffset : Nat) : List Slot :=
  if dayScanSkip p dayOffset then []
  else
    slotLoop p.limit p.durationMin (dayEndAbs p dayOffset) (p.baseDay + dayOffset)
      (isFreeCandidate now (p.baseDay + dayOffset) (dayEndAbs p dayOffset) p.durationMin
        p.minStart (dayBusy appts p dayOffset))
      (dayEndAbs p dayOffset + 1) (dayInitStart p dayOffset) []

/-- The day loop of `_suggest_slots`: scan the offsets in order and stop at
the first day that produced any slot (`if out: break`). -/
def suggestGo (appts : List Appt) (now : Nat) (p : SuggestParams) : List Nat → List Slot
  | [] => []
  | off :: rest =>
      let out := dayScan appts now p off
      if out.isEmpty then suggestGo appts now p rest else out

/-- `_suggest_slots` over the day offsets `range(0, max(0, days_ahead) + 1)`. -/
def suggestSlots (appts : List Appt) (now : Nat) (p : SuggestParams) : List Slot :=
  suggestGo appts now p (List.range (p.daysAhead + 1))

/- ===================================================================
Section 5: duration prediction and the healing-window floor
(appointment_agent.py).
=================================================================== -/

structure VisitProcedure where
  procedureCode : String
  actualDurationMin : Nat
deriving DecidableEq, Repr

/-- `DEFAULT_DURATIONS_MIN`. -/
def DEFAULT_DURATIONS_MIN : List (String × Nat) :=
  [("CONSULTATION", 20), ("CHECKUP", 20), ("SCALING", 45), ("FILLING", 60),
   ("EXTRACTION", 45), ("ROOT_CANAL", 90), ("IMPLANT", 120)]

/-- `DEFAULT_DURATIONS_MIN.get(proc, 30)`. -/
def defaultDurationFor (proc : String) : Nat :=
  match DEFAULT_DURATIONS_MIN.lookup proc with
  | some d => d
  | none => 30

/-- `_norm_proc_type`: strip, upper, `-`/space to `_`, default
`CONSULTATION` when empty, truncated to 50 characters. -/
def normProcType (s : String) : String :=
  let t := replaceChar ' ' '_' (replaceChar '-' '_' (toUpperStr (stripStr s)))
  strTake (if t.data.isEmpty then "CONSULTATION" else t) 50

def insertSortedNat (x : Nat) : List Nat → List Nat
  | [] => [x]
  | y :: rest => if x < y then x :: y :: rest else y :: insertSortedNat x rest

def sortNat : List Nat → List Nat
  | [] => []
  | x :: rest => insertSortedNat x (sortNat rest)

/-- The rows and Python-side `if v:` filter of `_predict_duration_minutes`:
`WHERE code=%s AND actual_duration_min IS NOT NULL AND actual_duration_min > 0`. -/
def rawDurationSamples (visits : List VisitProcedure) (proc : String) : List Nat :=
  (visits.filter (fun v => v.procedureCode == proc && v.actualDurationMin != 0)).map
    (fun v => v.actualDurationMin)

/-- The sample query of `_predict_duration_minutes`, with its
`ORDER BY actual_duration_min`. -/
def durationSamples (visits : List VisitProcedure) (proc : String) : List Nat :=
  sortNat (rawDurationSamples visits proc)

/-- The median the source computes on the sorted sample list: the middle
element for odd length, the floor-average of the two middle elements for
even length. -/
def medianOfSorted (vals : List Nat) : Nat :=
  if vals.length % 2 == 1 then vals.getD (vals.length / 2) 0
  else (vals.getD (vals.length / 2 - 1) 0 + vals.getD (vals.length / 2) 0) / 2

/-- `_predict_duration_minutes`: with at least 5 samples, the median of the
sorted samples clamped to `[10, 240]`; otherwise the per-type default. -/
def predictDurationMinutes (visits : List VisitProcedure) (procedureType : String) : Nat :=
  let proc := normProcType procedureType
  let vals := sortNat (durationSamples visits proc)
  if 5 ≤ vals.length then
    let mid := vals.length / 2
    let med :=
      if vals.length % 2 == 1 then vals.getD mid 0
      else (vals.getD (mid - 1) 0 + vals.getD mid 0) / 2
    max 10 (min med 240)
  else defaultDurationFor proc

/-- `CASE_STAGE_HEALING`. -/
def CASE_STAGE_HEALING : List (String × Nat) :=
  [("NEW", 0), ("IN_TREATMENT", 3), ("WAITING_ON_PATIENT", 7), ("CLOSED", 0), ("COMPLETED", 0)]

/-- `_case_stage_healing`: 0 for a missing stage or an unknown stage name. -/
def caseStageHealingDays (stage : Option String) : Nat :=
  match stage with
  | none => 0
  | some st =>
      match CASE_STAGE_HEALING.lookup (toUpperStr st) with
      | some d => d
      | none => 0

/-- `_calculate_case_min_start`: `None` for a falsy case id, otherwise the
reference instant plus the stage's healing days, raised to `now` when that
candidate lies in the past. -/
def calculateCaseMinStart (caseId : Nat) (stage : Option String) (referenceAbs nowAbs : Nat) :
    Option Nat :=
  if caseId == 0 then none
  else
    let candidate := referenceAbs + caseStageHealingDays stage * minutesPerDay
    some (if nowAbs ≤ candidate then candidate else nowAbs)

/-- The healing-window clamp in `on_appointment_created`:
`if min_start_dt and start_dt and start_dt < min_start_dt: start_dt = min_start_dt`. -/
def clampStartToMin (startAbs : Nat) (minStart : Option Nat) : Nat :=
  match minStart with
  | some m => if startAbs < m then m else startAbs
  | none => startAbs

/-- 2024-01-01 as a day index (days since 1970-01-01). -/
def day20240101 : Nat := 19723

/-- 2024-01-08 as a day index. -/
def day20240108 : Nat := 19730

/- ===================================================================
Section 6: concrete fixtures used by witnesses and counterexamples.
=================================================================== -/

/-- A freshly enqueued event row. -/
def evNew1 : EventRow :=
  { id := 1, eventType := "AppointmentCreated", payloadJson := "{}", status := "NEW",
    priority := 50, attempts := 0, maxAttempts := 5, availableAt := some 0,
    lockedBy := none, lockedUntil := none, lockedAt := none, lastError := none,
    processedAt := none }

/-- A row whose `max_attempts` is NULL/0 and whose attempts have grown. -/
def evMax0 : EventRow := { evNew1 with attempts := 5, maxAttempts := 0 }

/-- A row one attempt short of its retry budget (`attempts = max_attempts - 1`). -/
def evAtEdge : EventRow := { evNew1 with id := 2, attempts := 4, maxAttempts := 5 }

/-- A queue whose ledger holds an expired entry for key `"k"`
(`expires_at = 5`, checked against `now = 100`). -/
def qLedgerExpired : QueueState :=
  { events := [], ledger := [⟨"k", "w-old", 5, 0⟩], nextId := 1 }

/-- An empty queue with an empty ledger. -/
def qFresh : QueueState := { events := [], ledger := [], nextId := 1 }

/-- Doctor 1 books [10:15, 10:45) of day 100 — overlaps a [10:00, 10:30)
target. -/
def cApptOverlap : Appt :=
  { id := 1, doctorId := 1, operatoryId := none, scheduledDay := 100,
    scheduledTimeMin := some 615, scheduledEndTimeMin := some 645,
    predictedDurationMin := 30, status := "Scheduled" }

/-- Doctor 1 books [10:30, 11:00) of day 100 — touches the target boundary. -/
def cApptTouch : Appt :=
  { id := 2, doctorId := 1, operatoryId := none, scheduledDay := 100,
    scheduledTimeMin := some 630, scheduledEndTimeMin := some 660,
    predictedDurationMin := 30, status := "scheduled" }

/-- A no-show booking of doctor 1 over [10:15, 10:45) of day 100. -/
def cApptNoShow : Appt :=
  { id := 3, doctorId := 1, operatoryId := none, scheduledDay := 100,
    scheduledTimeMin := some 615, scheduledEndTimeMin := some 645,
    predictedDurationMin := 30, status := "No-Show" }

/-- Appointments of doctor 1 on day 100. -/
def cAppts : List Appt := [cApptOverlap, cApptTouch, cApptNoShow]

/-- One existing booking, [10:00, 10:45) of doctor 1 on day 100. -/
def sAppts : List Appt :=
  [{ id := 7, doctorId := 1, operatoryId := none, scheduledDay := 100,
     scheduledTimeMin := some 600, scheduledEndTimeMin := some 645,
     predictedDurationMin := 45, status := "Scheduled" }]

/-- A slot search on day 100 for a 30-minute appointment (now = minute 1000
of day 0, far before day 100). -/
def sParams : SuggestParams :=
  { doctorId := 1, baseDay := 100, durationMin := 30, operatoryId := none,
    excludeApptId := none, limit := 3, daysAhead := 7, startTimeMin := none,
    minStart := none }

/-- The same search constrained by a healing floor at 11:00 of day 100. -/
def sParamsFloor : SuggestParams :=
  { sParams with minStart := some (100 * minutesPerDay + 660) }

/-- Five historical root-canal durations (sorted: 70, 80, 90, 100, 300). -/
def c8Visits : List VisitProcedure :=
  [⟨"ROOT_CANAL", 80⟩, ⟨"ROOT_CANAL", 100⟩, ⟨"ROOT_CANAL", 90⟩,
   ⟨"ROOT_CANAL", 70⟩, ⟨"ROOT_CANAL", 300⟩]

/- ===================================================================
Section 7: helper lemmas.
=================================================================== -/

theorem claimBefore_irrefl (a : EventRow) : claimBefore a a = false := by
  simp [claimBefore]

theorem claimBefore_trans {a b c : EventRow} (h1 : claimBefore a b = true)
    (h2 : claimBefore b c = true) : claimBefore a c = true := by
  simp only [claimBefore, Bool.or_eq_true, Bool.and_eq_true, decide_eq_true_eq,
    beq_iff_eq] at h1 h2 ⊢
  omega

theorem claimBefore_neg_trans {a b c : EventRow} (h1 : claimBefore a b = false)
    (h2 : claimBefore b c = false) : claimBefore a c = false := by
  simp only [claimBefore, Bool.or_eq_false_iff, Bool.and_eq_false_iff,
    decide_eq_false_iff_not, beq_eq_false_iff_ne, ne_eq, Bool.or_eq_true,
    Bool.and_eq_true, decide_eq_true_eq, beq_iff_eq] at h1 h2 ⊢
  omega

/-- Invariant of the fold behind `pickFirst`. -/
theorem pickFirst_fold_spec (l : List EventRow) :
    ∀ (acc : Option EventRow) (r : EventRow),
      l.foldl
        (fun acc r =>
          match acc with
          | none => some r
          | some b => if claimBefore r b then some r else some b)
        acc = some r →
      (acc = some r ∨ r ∈ l) ∧
      (∀ x ∈ l, claimBefore x r = false) ∧
      (∀ b, acc = some b → claimBefore b r = false) := by
  induction l with
  | nil =>
      intro acc r h
      refine ⟨Or.inl h, by simp, ?_⟩
      intro b hb
      rw [hb] at h
      cases h
      exact claimBefore_irrefl r
  | cons a l ih =>
      intro acc r h
      simp only [List.foldl_cons] at h
      match hacc : acc with
      | none =>
          obtain ⟨hmem, hmin, hstep⟩ := ih (some a) r h
          have ha : claimBefore a r = false := hstep a rfl
          refine ⟨?_, ?_, ?_⟩
          · rcases hmem with h' | h'
            · exact Or.inr (by simp [Option.some.injEq] at h'; simp [h'])
            · exact Or.inr (List.mem_cons_of_mem _ h')
          · intro x hx
            rcases List.mem_cons.mp hx with rfl | hx'
            · exact ha
            · exact hmin x hx'
          · intro b hb
            cases hb
      | some b0 =>
          by_cases hcb : claimBefore a b0 = true
          · simp only [hcb, if_true] at h
            obtain ⟨hmem, hmin, hstep⟩ := ih (some a) r h
            have ha : claimBefore a r = false := hstep a rfl
            refine ⟨?_, ?_, ?_⟩
            · rcases hmem with h' | h'
              · exact Or.inr (by simp [Option.some.injEq] at h'; simp [h'])
              · exact Or.inr (List.mem_cons_of_mem _ h')
            · intro x hx
              rcases List.mem_cons.mp hx with rfl | hx'
              · exact ha
              · exact hmin x hx'
            · intro b hb
              have hb' : b0 = b := by injection hb
              rw [← hb']
              by_contra hbr
              have hbr' : claimBefore b0 r = true := by
                revert hbr; cases claimBefore b0 r <;> simp
              have hcontra := claimBefore_trans hcb hbr'
              rw [ha] at hcontra
              exact absurd hcontra (by decide)
          · have hcb' : claimBefore a b0 = false := by
              revert hcb; cases claimBefore a b0 <;> simp
            simp only [hcb', Bool.false_eq_true, if_false] at h
            obtain ⟨hmem, hmin, hstep⟩ := ih (some b0) r h
            have hb0 : claimBefore b0 r = false := hstep b0 rfl
            refine ⟨?_, ?_, ?_⟩
            · rcases hmem with h' | h'
              · exact Or.inl h'
              · exact Or.inr (List.mem_cons_of_mem _ h')
            · intro x hx
              rcases List.mem_cons.mp hx with rfl | hx'
              · exact claimBefore_neg_trans hcb' hb0
              · exact hmin x hx'
            · intro b hb
              have hb' : b0 = b := by injection hb
              rw [← hb']
              exact hb0

theorem pickFirst_mem {l : List EventRow} {r : EventRow} (h : pickFirst l = some r) :
    r ∈ l := by
  rcases (pickFirst_fold_spec l none r h).1 with h' | h'
  · cases h'
  · exact h'

theorem pickFirst_min {l : List EventRow} {r : EventRow} (h : pickFirst l = some r) :
    ∀ x ∈ l, claimBefore x r = false :=
  (pickFirst_fold_spec l none r h).2.1

theorem pickFirst_eq_none {l : List EventRow} (h : pickFirst l = none) : l = [] := by
  cases l with
  | nil => rfl
  | cons a l =>
      exfalso
      unfold pickFirst at h
      simp only [List.foldl_cons] at h
      have : ∀ (l' : List EventRow) (b : EventRow),
          l'.foldl
            (fun acc r =>
              match acc with
              | none => some r
              | some b => if claimBefore r b then some r else some b)
            (some b) ≠ none := by
        intro l'
        induction l' with
        | nil => intro b hb; cases hb
        | cons x l' ih =>
            intro b
            simp only [List.foldl_cons]
            by_cases hx : claimBefore x b = true
            · rw [hx]; simpa using ih x
            · have hx' : claimBefore x b = false := by
                revert hx; cases claimBefore x b <;> simp
              rw [hx']
              simpa using ih b
      exact this l a h

/-- With pairwise-distinct keys, two members with the same key coincide. -/
theorem eq_of_mem_of_key {α : Type} (key : α → Nat) {l : List α}
    (h : l.Pairwise (fun x y => key x ≠ key y)) {a b : α}
    (ha : a ∈ l) (hb : b ∈ l) (hk : key a = key b) : a = b := by
  by_contra hne
  exact (h.forall (fun x y hxy => (Ne.symm hxy)) ha hb hne) hk

/-- `find?` by id returns the unique member carrying that id. -/
theorem find?_id_of_mem {tbl : List EventRow} {r : EventRow} {eventId : Nat}
    (hids : tbl.Pairwise (fun a b => a.id ≠ b.id)) (hr : r ∈ tbl) (hid : r.id = eventId) :
    tbl.find? (fun x => x.id == eventId) = some r := by
  induction tbl with
  | nil => cases hr
  | cons a l ih =>
      rcases List.mem_cons.mp hr with rfl | hr'
      · simp [List.find?, hid]
      · have hne : a.id ≠ r.id := (List.pairwise_cons.mp hids).1 r hr'
        have : (a.id == eventId) = false := by
          simp only [beq_eq_false_iff_ne, ne_eq]
          omega
        simp only [List.find?, this]
        exact ih (List.pairwise_cons.mp hids).2 hr'

/- ===================================================================
Section 8: claims about the event store.
=================================================================== -/

/-- C1: the claim asserts that the read-then-update inside `claim` is
atomic, so that for concurrent claim calls on the same row a second claim
must fail or see the row as ineligible.  The code's SELECT takes no row
lock and its UPDATE filters by id only, with no status recheck; under the
interleaving select₁ ; select₂ ; update₁ ; update₂ both workers claim the
same row: both SELECT phases return event 1, worker w1's UPDATE installs an
active lease, and worker w2's UPDATE still applies, overwriting that active
lease, so both claim calls return event 1.  A serialized second claim
would instead have returned none — the code diverges from the claim only
under interleaving, which is exactly the case the claim is about. -/
theorem claim_lease_race :
    selectNextEvent ["NEW"] 1000 [evNew1] = some evNew1 ∧
    claimNextEvent ["NEW"] 1000 "w1" 60 [evNew1] =
      (some ⟨1, "AppointmentCreated", "{}"⟩, claimUpdateById 1000 "w1" 60 1 [evNew1]) ∧
    (claimUpdateById 1000 "w1" 60 1 [evNew1]).map
        (fun r => (r.status, r.lockedBy, r.lockedUntil)) =
      [("PROCESSING", some "w1", some 1060)] ∧
    (1000 : Nat) < 1060 ∧
    (claimUpdateById 1000 "w2" 60 1 (claimUpdateById 1000 "w1" 60 1 [evNew1])).map
        (fun r => (r.status, r.lockedBy, r.lockedUntil, r.attempts)) =
      [("PROCESSING", some "w2", some 1060, 2)] ∧
    claimNextEvent ["NEW"] 1000 "w2" 60 (claimUpdateById 1000 "w1" 60 1 [evNew1]) =
      (none, claimUpdateById 1000 "w1" 60 1 [evNew1]) := by
  decide

/-- C2: on any table with distinct ids, `claim_next_event` either returns
none leaving the table unchanged when no row is eligible (pending status,
`available_at` null or ≤ now, lock expiry null or ≤ now), or picks an
eligible row that no other eligible row precedes in the order
`priority DESC, id ASC`, updates exactly that row to PROCESSING with the
worker's lease, incremented attempts and cleared error, and leaves every
other row unchanged. -/
theorem claim_next_event_spec (pendingStates : List String) (now : Nat) (workerId : String)
    (lockSeconds : Nat) (tbl : List EventRow)
    (hids : tbl.Pairwise (fun a b => a.id ≠ b.id)) :
    (claimNextEvent pendingStates now workerId lockSeconds tbl = (none, tbl) ∧
      ∀ r ∈ tbl, eligibleB pendingStates now r = false) ∨
    (∃ r ∈ tbl,
      eligibleB pendingStates now r = true ∧
      (∀ x ∈ tbl, eligibleB pendingStates now x = true → claimBefore x r = false) ∧
      claimNextEvent pendingStates now workerId lockSeconds tbl =
        (some ⟨r.id, r.eventType, r.payloadJson⟩,
          tbl.map (fun x =>
            if x.id == r.id then applyClaimUpdate now workerId lockSeconds x else x)) ∧
      applyClaimUpdate now workerId lockSeconds r =
        { r with
            status := "PROCESSING"
            lockedBy := some workerId
            lockedUntil := some (now + lockSeconds)
            attempts := r.attempts + 1
            lastError := none
            lockedAt := some now } ∧
      (∀ x ∈ tbl, x ≠ r →
        x ∈ (claimNextEvent pendingStates now workerId lockSeconds tbl).2)) := by
  cases hsel : selectNextEvent pendingStates now tbl with
  | none =>
      left
      constructor
      · simp [claimNextEvent, hsel]
      · have hnil : tbl.filter (eligibleB pendingStates now) = [] :=
          pickFirst_eq_none (by simpa [selectNextEvent] using hsel)
        intro r hr
        by_contra hel
        have hel' : eligibleB pendingStates now r = true := by
          revert hel; cases eligibleB pendingStates now r <;> simp
        have : r ∈ tbl.filter (eligibleB pendingStates now) :=
          List.mem_filter.mpr ⟨hr, hel'⟩
        rw [hnil] at this
        cases this
  | some r =>
      right
      have hpick : pickFirst (tbl.filter (eligibleB pendingStates now)) = some r := by
        simpa [selectNextEvent] using hsel
      have hmemf := pickFirst_mem hpick
      have hmem : r ∈ tbl := (List.mem_filter.mp hmemf).1
      have hel : eligibleB pendingStates now r = true := (List.mem_filter.mp hmemf).2
      refine ⟨r, hmem, hel, ?_, ?_, rfl, ?_⟩
      · intro x hx hxe
        exact pickFirst_min hpick x (List.mem_filter.mpr ⟨hx, hxe⟩)
      · simp [claimNextEvent, hsel, claimUpdateById]
      · intro x hx hxr
        have hxid : x.id ≠ r.id := fun h => hxr (eq_of_mem_of_key EventRow.id hids hx hmem h)
        simp only [claimNextEvent, hsel, claimUpdateById]
        refine List.mem_map.mpr ⟨x, hx, ?_⟩
        simp [hxid]

/-- Witness for C2 on the one-row table `[evNew1]`. -/
theorem claim_next_event_spec_witness :
    (claimNextEvent ["NEW", "PENDING"] 1000 "w1" 60 [evNew1] = (none, [evNew1]) ∧
      ∀ r ∈ [evNew1], eligibleB ["NEW", "PENDING"] 1000 r = false) ∨
    (∃ r ∈ [evNew1],
      eligibleB ["NEW", "PENDING"] 1000 r = true ∧
      (∀ x ∈ [evNew1], eligibleB ["NEW", "PENDING"] 1000 x = true → claimBefore x r = false) ∧
      claimNextEvent ["NEW", "PENDING"] 1000 "w1" 60 [evNew1] =
        (some ⟨r.id, r.eventType, r.payloadJson⟩,
          [evNew1].map (fun x =>
            if x.id == r.id then applyClaimUpdate 1000 "w1" 60 x else x)) ∧
      applyClaimUpdate 1000 "w1" 60 r =
        { r with
            status := "PROCESSING"
            lockedBy := some "w1"
            lockedUntil := some (1000 + 60)
            attempts := r.attempts + 1
            lastError := none
            lockedAt := some 1000 } ∧
      (∀ x ∈ [evNew1], x ≠ r →
        x ∈ (claimNextEvent ["NEW", "PENDING"] 1000 "w1" 60 [evNew1]).2)) :=
  claim_next_event_spec ["NEW", "PENDING"] 1000 "w1" 60 [evNew1] (by simp)

/-- C9: `mark_done` puts the row in DONE with the lease fields cleared
(for the row carrying the given id), a second call leaves it in DONE with
the lease still cleared, and the double application equals the single one. -/
theorem mark_done_idempotent (now1 now2 eventId : Nat) (tbl : List EventRow) :
    (∀ x ∈ markDone now1 eventId tbl, x.id = eventId →
      x.status = "DONE" ∧ x.lockedBy = none ∧ x.lockedUntil = none ∧ x.lockedAt = none) ∧
    (∀ x ∈ markDone now2 eventId (markDone now1 eventId tbl), x.id = eventId →
      x.status = "DONE" ∧ x.lockedBy = none ∧ x.lockedUntil = none ∧ x.lockedAt = none) ∧
    markDone now1 eventId (markDone now1 eventId tbl) = markDone now1 eventId tbl := by
  have hone : ∀ (n : Nat) (t : List EventRow), ∀ x ∈ markDone n eventId t, x.id = eventId →
      x.status = "DONE" ∧ x.lockedBy = none ∧ x.lockedUntil = none ∧ x.lockedAt = none := by
    intro n t x hx hxid
    simp only [markDone, List.mem_map] at hx
    obtain ⟨y, hy, rfl⟩ := hx
    cases hbeq : (y.id == eventId) with
    | true => simp [hbeq]
    | false =>
        simp only [hbeq, Bool.false_eq_true, if_false] at hxid ⊢
        exact absurd hxid (by simpa using hbeq)
  refine ⟨hone now1 tbl, hone now2 (markDone now1 eventId tbl), ?_⟩
  simp only [markDone, List.map_map]
  apply List.map_congr_left
  intro y _
  by_cases h : y.id = eventId
  · simp [Function.comp, h]
  · simp [Function.comp, h]

/-- Witness for C9 on the one-row table `[evNew1]`. -/
theorem mark_done_idempotent_witness :
    (({ evNew1 with
        status := "DONE", lockedBy := none, lockedUntil := none, lockedAt := none,
        processedAt := some 60, lastError := none } : EventRow).status = "DONE" ∧
      ({ evNew1 with
        status := "DONE", lockedBy := none, lockedUntil := none, lockedAt := none,
        processedAt := some 60, lastError := none } : EventRow).lockedBy = none ∧
      ({ evNew1 with
        status := "DONE", lockedBy := none, lockedUntil := none, lockedAt := none,
        processedAt := some 60, lastError := none } : EventRow).lockedUntil = none ∧
      ({ evNew1 with
        status := "DONE", lockedBy := none, lockedUntil := none, lockedAt := none,
        processedAt := some 60, lastError := none } : EventRow).lockedAt = none) ∧
    markDone 60 1 (markDone 60 1 [evNew1]) = markDone 60 1 [evNew1] :=
  ⟨(mark_done_idempotent 60 61 1 [evNew1]).1 _ (by decide) (by decide),
   (mark_done_idempotent 60 61 1 [evNew1]).2.2⟩

/-- C10: a row whose `max_attempts` is NULL or 0 (the source coerces both,
and an absent column, to a falsy value) is always requeued to NEW with a
delayed `available_at` by `mark_failed`, never moved to DEAD or FAILED. -/
theorem mark_failed_never_dead (now retryDelay eventId : Nat) (hasDead : Bool) (err : String)
    (tbl : List EventRow) (r : EventRow)
    (hids : tbl.Pairwise (fun a b => a.id ≠ b.id)) (hr : r ∈ tbl) (hid : r.id = eventId)
    (hmax : r.maxAttempts = 0) :
    ∀ x ∈ markFailed now hasDead eventId err retryDelay tbl, x.id = eventId →
      x.status = "NEW" ∧ x.status ≠ "DEAD" ∧ x.status ≠ "FAILED" ∧
      x.availableAt = some (now + retryDelay) ∧ x.lockedBy = none ∧ x.lockedUntil = none := by
  have hfind := find?_id_of_mem hids hr hid
  have hsd : markFailedShouldDead eventId tbl = false := by
    simp [markFailedShouldDead, hfind, hmax]
  intro x hx hxid
  simp only [markFailed, hsd, Bool.false_eq_true, if_false, List.mem_map] at hx
  obtain ⟨y, hy, rfl⟩ := hx
  cases hbeq : (y.id == eventId) with
  | true => simp [hbeq]
  | false =>
      simp only [hbeq, Bool.false_eq_true, if_false] at hxid ⊢
      exact absurd hxid (by simpa using hbeq)

/-- Witness for C10: a row with `attempts = 5`, `max_attempts = 0` is
requeued to NEW with `available_at = 50 + 20`. -/
theorem mark_failed_never_dead_witness :
    ({ evMax0 with
        status := "NEW", lockedBy := none, lockedUntil := none, lockedAt := none,
        lastError := some (strTake "boom" 2000), availableAt := some 70 } : EventRow).status
      = "NEW" ∧
    ({ evMax0 with
        status := "NEW", lockedBy := none, lockedUntil := none, lockedAt := none,
        lastError := some (strTake "boom" 2000), availableAt := some 70 } : EventRow).status
      ≠ "DEAD" ∧
    ({ evMax0 with
        status := "NEW", lockedBy := none, lockedUntil := none, lockedAt := none,
        lastError := some (strTake "boom" 2000), availableAt := some 70 } : EventRow).status
      ≠ "FAILED" ∧
    ({ evMax0 with
        status := "NEW", lockedBy := none, lockedUntil := none, lockedAt := none,
        lastError := some (strTake "boom" 2000), availableAt := some 70 } : EventRow).availableAt
      = some (50 + 20) ∧
    ({ evMax0 with
        status := "NEW", lockedBy := none, lockedUntil := none, lockedAt := none,
        lastError := some (strTake "boom" 2000), availableAt := some 70 } : EventRow).lockedBy
      = none ∧
    ({ evMax0 with
        status := "NEW", lockedBy := none, lockedUntil := none, lockedAt := none,
        lastError := some (strTake "boom" 2000), availableAt := some 70 } : EventRow).lockedUntil
      = none :=
  mark_failed_never_dead 50 20 1 true "boom" [evMax0] evMax0
    (by simp) (by decide) (by decide) (by decide) _ (by decide) (by decide)

/-- C3 counterexample: the claim quantifies over every event row, but a row
with `attempts = 5 ≥ max_attempts = 0` is requeued to NEW with a delayed
`available_at` instead of being moved to DEAD/FAILED, because the source's
truthiness test `if max_attempts and ...` treats `max_attempts = 0`/NULL as
"no retry budget configured". -/
theorem mark_failed_spec_counterexample :
    evMax0.maxAttempts ≤ evMax0.attempts ∧
    (markFailed 50 true 1 "boom" 20 [evMax0]).map (fun x => x.status) = ["NEW"] ∧
    (markFailed 50 true 1 "boom" 20 [evMax0]).map (fun x => x.availableAt) = [some 70] := by
  decide

theorem claimUpdateById_preserves_id (now : Nat) (workerId : String) (lockSeconds eventId : Nat)
    (x : EventRow) :
    (if x.id == eventId then applyClaimUpdate now workerId lockSeconds x else x).id = x.id := by
  by_cases h : (x.id == eventId) = true
  · simp [h, applyClaimUpdate]
  · simp [h]

theorem claimUpdateById_pairwise (now : Nat) (workerId : String) (lockSeconds eventId : Nat)
    {tbl : List EventRow} (hids : tbl.Pairwise (fun a b => a.id ≠ b.id)) :
    (claimUpdateById now workerId lockSeconds eventId tbl).Pairwise
      (fun a b => a.id ≠ b.id) := by
  unfold claimUpdateById
  rw [List.pairwise_map]
  refine hids.imp ?_
  intro a b hab
  rw [claimUpdateById_preserves_id, claimUpdateById_preserves_id]
  exact hab

/-- C3 (amended): when `max_attempts` is positive, `mark_failed` requeues a
row with `attempts < max_attempts` to NEW with `available_at` delayed by
the retry delay, the truncated error recorded and the lease cleared, and
moves a row with `attempts ≥ max_attempts` to DEAD (FAILED when the schema
lacks DEAD) with the lease cleared, the error recorded and `available_at`
untouched; consequently a row claimed at `attempts = max_attempts - 1`
(claiming increments `attempts`) lands on DEAD/FAILED, not NEW, at its next
failure. -/
theorem mark_failed_retry_then_dead (now cnow retryDelay eventId lockSeconds : Nat)
    (hasDead : Bool) (workerId err : String) (tbl : List EventRow) (r : EventRow)
    (hids : tbl.Pairwise (fun a b => a.id ≠ b.id)) (hr : r ∈ tbl) (hid : r.id = eventId) :
    (r.attempts < r.maxAttempts →
      { r with
          status := "NEW", lockedBy := none, lockedUntil := none, lockedAt := none,
          lastError := some (strTake err 2000), availableAt := some (now + retryDelay) }
        ∈ markFailed now hasDead eventId err retryDelay tbl) ∧
    (0 < r.maxAttempts → r.maxAttempts ≤ r.attempts →
      { r with
          status := if hasDead then "DEAD" else "FAILED",
          lockedBy := none, lockedUntil := none, lockedAt := none,
          lastError := some (strTake err 2000) }
        ∈ markFailed now hasDead eventId err retryDelay tbl) ∧
    (r.attempts + 1 = r.maxAttempts →
      { applyClaimUpdate cnow workerId lockSeconds r with
          status := if hasDead then "DEAD" else "FAILED",
          lockedBy := none, lockedUntil := none, lockedAt := none,
          lastError := some (strTake err 2000) }
        ∈ markFailed now hasDead eventId err retryDelay
            (claimUpdateById cnow workerId lockSeconds eventId tbl)) := by
  have hfind := find?_id_of_mem hids hr hid
  refine ⟨?_, ?_, ?_⟩
  · intro hlt
    have hsd : markFailedShouldDead eventId tbl = false := by
      simp only [markFailedShouldDead, hfind, Bool.and_eq_false_iff, decide_eq_false_iff_not]
      right
      omega
    simp only [markFailed, hsd, Bool.false_eq_true, if_false]
    refine List.mem_map.mpr ⟨r, hr, ?_⟩
    simp [hid]
  · intro hpos hge
    have hsd : markFailedShouldDead eventId tbl = true := by
      simp only [markFailedShouldDead, hfind, Bool.and_eq_true, bne_iff_ne, ne_eq,
        decide_eq_true_eq]
      omega
    simp only [markFailed, hsd, if_true]
    refine List.mem_map.mpr ⟨r, hr, ?_⟩
    simp [hid]
  · intro hedge
    have hrk : applyClaimUpdate cnow workerId lockSeconds r ∈
        claimUpdateById cnow workerId lockSeconds eventId tbl := by
      unfold claimUpdateById
      refine List.mem_map.mpr ⟨r, hr, ?_⟩
      simp [hid]
    have hids2 := claimUpdateById_pairwise cnow workerId lockSeconds eventId hids
    have hid2 : (applyClaimUpdate cnow workerId lockSeconds r).id = eventId := hid
    have hfind2 := find?_id_of_mem hids2 hrk hid2
    have hsd2 : markFailedShouldDead eventId
        (claimUpdateById cnow workerId lockSeconds eventId tbl) = true := by
      simp only [markFailedShouldDead, hfind2, Bool.and_eq_true, bne_iff_ne, ne_eq,
        decide_eq_true_eq, applyClaimUpdate]
      omega
    simp only [markFailed, hsd2, if_true]
    refine List.mem_map.mpr ⟨applyClaimUpdate cnow workerId lockSeconds r, hrk, ?_⟩
    simp [hid2]

/-- Witness for C3: the row `evAtEdge` (`attempts = 4`, `max_attempts = 5`)
claimed at `cnow = 100` and failed at `now = 200` lands on DEAD. -/
theorem mark_failed_retry_then_dead_witness :
    ({ applyClaimUpdate 100 "w1" 60 evAtEdge with
        status := if true then "DEAD" else "FAILED",
        lockedBy := none, lockedUntil := none, lockedAt := none,
        lastError := some (strTake "boom" 2000) } : EventRow)
      ∈ markFailed 200 true 2 "boom" 20 (claimUpdateById 100 "w1" 60 2 [evAtEdge]) :=
  (mark_failed_retry_then_dead 200 100 20 2 60 true "w1" "boom" [evAtEdge] evAtEdge
    (by simp) (by decide) (by decide)).2.2 (by decide)

/-- C7 counterexample: the ledger entry for key `"k"` is expired
(`expires_at = 5 ≤ now = 100`), yet enqueue is still suppressed: it returns
0, inserts no event row and does not refresh the ledger entry, because
`_insert_idempotency_lock` attempts its INSERT without purging expired
rows, so the unique constraint on `lock_key` fires regardless of expiry. -/
theorem enqueue_dedupe_counterexample :
    qLedgerExpired.ledger.map (fun e => e.expiresAt) = [5] ∧ (5 : Nat) ≤ 100 ∧
    enqueueEvent 100 "CaseReviewTick" "{}" 50 none (some "k") 0 qLedgerExpired =
      (0, qLedgerExpired) := by
  decide

/-- C7 (amended): enqueue with a `dedupe_key` whose (truncated) key is
already present in the ledger — expired or not — returns 0 and changes
nothing; when the key is absent the ledger entry is inserted and the event
row is created, returning its fresh id. -/
theorem enqueue_dedupe_spec (now : Nat) (eventType payloadJson : String) (priority : Int)
    (runAt : Option Nat) (key : String) (maxAttempts : Nat) (st : QueueState) :
    (st.ledger.any (fun e => e.lockKey == strTake key 190) = true →
      enqueueEvent now eventType payloadJson priority runAt (some key) maxAttempts st =
        (0, st)) ∧
    (st.ledger.any (fun e => e.lockKey == strTake key 190) = false →
      enqueueEvent now eventType payloadJson priority runAt (some key) maxAttempts st =
        (st.nextId,
          { events := st.events ++
              [newEventRow now eventType payloadJson priority runAt maxAttempts st.nextId],
            ledger := ⟨strTake key 190, "enqueue_event", now + 24 * 3600, now⟩ :: st.ledger,
            nextId := st.nextId + 1 })) := by
  constructor <;> intro h <;> simp [enqueueEvent, insertIdempotencyLock, h]

/-- Witness for C7: both branches at `now = 100` with key `"k"`. -/
theorem enqueue_dedupe_spec_witness :
    (enqueueEvent 100 "InventoryTick" "{}" 50 none (some "k") 3 qLedgerExpired =
      (0, qLedgerExpired)) ∧
    (enqueueEvent 100 "InventoryTick" "{}" 50 none (some "k") 3 qFresh =
      (1,
        { events := [newEventRow 100 "InventoryTick" "{}" 50 none 3 1],
          ledger := [⟨strTake "k" 190, "enqueue_event", 100 + 24 * 3600, 100⟩],
          nextId := 2 })) :=
  ⟨(enqueue_dedupe_spec 100 "InventoryTick" "{}" 50 none "k" 3 qLedgerExpired).1 (by decide),
   by
    have h := (enqueue_dedupe_spec 100 "InventoryTick" "{}" 50 none "k" 3 qFresh).2 (by decide)
    simpa [qFresh] using h⟩

/- ===================================================================
Section 9: claims about conflict detection.
=================================================================== -/

theorem conflictOf_some_intro {ts te : Nat} {ct : String} {row : Appt} {s : Nat}
    (hf : isFinalStatus (normStatus row.status) = false)
    (hs : apptStartAbs row = some s)
    (ho : overlapsB ts te s (apptEndAbs row s) = true) :
    conflictOf ts te ct row = some ⟨ct, row.id, s, row.status⟩ := by
  unfold conflictOf
  simp [hf, hs, ho]

theorem conflictOf_some_elim {ts te : Nat} {ct : String} {row : Appt} {c : Conflict}
    (h : conflictOf ts te ct row = some c) :
    isFinalStatus (normStatus row.status) = false ∧
    ∃ s, apptStartAbs row = some s ∧ overlapsB ts te s (apptEndAbs row s) = true ∧
      c = ⟨ct, row.id, s, row.status⟩ := by
  unfold conflictOf at h
  by_cases hf : isFinalStatus (normStatus row.status) = true
  · rw [if_pos hf] at h
    cases h
  · have hf' : isFinalStatus (normStatus row.status) = false := by
      revert hf; cases isFinalStatus (normStatus row.status) <;> simp
    rw [if_neg hf] at h
    refine ⟨hf', ?_⟩
    cases hs : apptStartAbs row with
    | none =>
        simp only [hs] at h
        cases h
    | some s =>
        simp only [hs] at h
        by_cases ho : overlapsB ts te s (apptEndAbs row s) = true
        · rw [if_pos ho] at h
          have hc : (⟨ct, row.id, s, row.status⟩ : Conflict) = c := by injection h
          exact ⟨s, rfl, ho, hc.symm⟩
        · rw [if_neg ho] at h
          cases h

theorem mem_detectConflicts {appts : List Appt} {apptId doctorId startAbs endAbs : Nat}
    {operatoryId : Option Nat} {c : Conflict} :
    c ∈ detectConflicts appts apptId doctorId startAbs endAbs operatoryId ↔
      ((∃ row, row ∈ appts ∧ (row.doctorId == doctorId && row.id != apptId) = true ∧
          conflictOf startAbs endAbs "DOCTOR" row = some c) ∨
        (optTruthy operatoryId = true ∧
          ∃ row, row ∈ appts ∧ (row.operatoryId == operatoryId && row.id != apptId) = true ∧
            conflictOf startAbs endAbs "OPERATORY" row = some c)) := by
  unfold detectConflicts
  cases hop : optTruthy operatoryId with
  | true =>
      simp only [hop, if_true, List.mem_append, List.mem_filterMap, List.mem_filter]
      constructor
      · rintro (⟨row, ⟨hrow, hflt⟩, hcf⟩ | ⟨row, ⟨hrow, hflt⟩, hcf⟩)
        · exact Or.inl ⟨row, hrow, hflt, hcf⟩
        · exact Or.inr ⟨trivial, row, hrow, hflt, hcf⟩
      · rintro (⟨row, hrow, hflt, hcf⟩ | ⟨_, row, hrow, hflt, hcf⟩)
        · exact Or.inl ⟨row, ⟨hrow, hflt⟩, hcf⟩
        · exact Or.inr ⟨row, ⟨hrow, hflt⟩, hcf⟩
  | false =>
      simp only [hop, Bool.false_eq_true, if_false, List.mem_filterMap, List.mem_filter]
      constructor
      · rintro ⟨row, ⟨hrow, hflt⟩, hcf⟩
        exact Or.inl ⟨row, hrow, hflt, hcf⟩
      · rintro (⟨row, hrow, hflt, hcf⟩ | ⟨hcontra, _⟩)
        · exact ⟨row, ⟨hrow, hflt⟩, hcf⟩
        · exact absurd hcontra (by decide)

/-- C4: for a target `(apptId, doctorId, [startAbs, endAbs))` and any other
appointment `b` of the same doctor with a parseable start `s`, conflict
detection reports `b` exactly when `b`'s status does not normalize to a
terminal one and `b`'s busy window (stored end if present, else start plus
predicted duration) passes the open-interval overlap test; a terminal
appointment is never reported even if its window overlaps, and a window
that only touches the target boundary (or is disjoint) is never reported. -/
theorem detect_conflicts_spec (appts : List Appt) (apptId doctorId startAbs endAbs : Nat)
    (operatoryId : Option Nat) (b : Appt) (s : Nat)
    (hids : appts.Pairwise (fun x y => x.id ≠ y.id))
    (hb : b ∈ appts) (hdoc : b.doctorId = doctorId) (hne : b.id ≠ apptId)
    (hs : apptStartAbs b = some s) :
    ((⟨"DOCTOR", b.id, s, b.status⟩ : Conflict) ∈
        detectConflicts appts apptId doctorId startAbs endAbs operatoryId ↔
      (isFinalStatus (normStatus b.status) = false ∧
        overlapsB startAbs endAbs s (apptEndAbs b s) = true)) ∧
    (isFinalStatus (normStatus b.status) = true →
      ∀ c ∈ detectConflicts appts apptId doctorId startAbs endAbs operatoryId,
        c.withAppointmentId ≠ b.id) ∧
    (apptEndAbs b s ≤ startAbs ∨ endAbs ≤ s →
      ∀ c ∈ detectConflicts appts apptId doctorId startAbs endAbs operatoryId,
        c.withAppointmentId ≠ b.id) := by
  have hkey : ∀ c ∈ detectConflicts appts apptId doctorId startAbs endAbs operatoryId,
      c.withAppointmentId = b.id →
      isFinalStatus (normStatus b.status) = false ∧
      overlapsB startAbs endAbs s (apptEndAbs b s) = true := by
    intro c hc hcid
    rcases mem_detectConflicts.mp hc with ⟨row, hrow, hflt, hcf⟩ | ⟨_, row, hrow, hflt, hcf⟩ <;>
    · rcases conflictOf_some_elim hcf with ⟨hfin, s', hs', hov, rfl⟩
      simp only at hcid
      have hrb : row = b := eq_of_mem_of_key Appt.id hids hrow hb hcid
      subst hrb
      rw [hs] at hs'
      cases hs'
      exact ⟨hfin, hov⟩
  refine ⟨⟨?_, ?_⟩, ?_, ?_⟩
  · intro h
    exact hkey _ h rfl
  · rintro ⟨hfin, hov⟩
    refine mem_detectConflicts.mpr (Or.inl ⟨b, hb, ?_, ?_⟩)
    · simp [hdoc, hne]
    · exact conflictOf_some_intro hfin hs hov
  · intro hfin c hc
    by_contra hcid
    have := (hkey c hc (by simpa using hcid)).1
    rw [hfin] at this
    exact absurd this (by decide)
  · intro hd c hc
    by_contra hcid
    have hov := (hkey c hc (by simpa using hcid)).2
    simp only [overlapsB, Bool.and_eq_true, decide_eq_true_eq] at hov
    omega

/-- Witness for C4: the booking [10:15, 10:45) of day 100 is reported
against the target [10:00, 10:30). -/
theorem detect_conflicts_spec_witness :
    (⟨"DOCTOR", 1, 100 * minutesPerDay + 615, "Scheduled"⟩ : Conflict) ∈
      detectConflicts cAppts 99 1 (100 * minutesPerDay + 600) (100 * minutesPerDay + 630)
        none :=
  (detect_conflicts_spec cAppts 99 1 (100 * minutesPerDay + 600) (100 * minutesPerDay + 630)
      none cApptOverlap (100 * minutesPerDay + 615)
      (by decide) (by decide) (by decide) (by decide) (by decide)).1.mpr (by decide)

/- ===================================================================
Section 10: the duration-prediction claim.
=================================================================== -/

theorem insertSortedNat_perm (x : Nat) (l : List Nat) :
    (insertSortedNat x l).Perm (x :: l) := by
  induction l with
  | nil => exact List.Perm.refl _
  | cons y rest ih =>
      unfold insertSortedNat
      by_cases h : x < y
      · rw [if_pos h]
      · rw [if_neg h]
        exact (ih.cons y).trans (List.Perm.swap x y rest)

theorem sortNat_perm (l : List Nat) : (sortNat l).Perm l := by
  induction l with
  | nil => exact List.Perm.refl _
  | cons x rest ih =>
      unfold sortNat
      exact (insertSortedNat_perm x (sortNat rest)).trans (ih.cons x)

theorem insertSortedNat_sorted {x : Nat} {l : List Nat} (h : l.Sorted (· ≤ ·)) :
    (insertSortedNat x l).Sorted (· ≤ ·) := by
  induction l with
  | nil => simp [insertSortedNat]
  | cons y rest ih =>
      unfold insertSortedNat
      have hy : ∀ b ∈ rest, y ≤ b := (List.sorted_cons.mp h).1
      have hrest : rest.Sorted (· ≤ ·) := (List.sorted_cons.mp h).2
      by_cases hxy : x < y
      · rw [if_pos hxy]
        rw [List.sorted_cons]
        refine ⟨?_, h⟩
        intro b hb
        rcases List.mem_cons.mp hb with rfl | hb'
        · omega
        · exact le_trans (by omega) (hy b hb')
      · rw [if_neg hxy]
        rw [List.sorted_cons]
        refine ⟨?_, ih hrest⟩
        intro b hb
        rcases List.mem_cons.mp ((insertSortedNat_perm x rest).mem_iff.mp hb) with rfl | hb'
        · omega
        · exact hy b hb'

theorem sortNat_sorted (l : List Nat) : (sortNat l).Sorted (· ≤ ·) := by
  induction l with
  | nil => simp [sortNat]
  | cons x rest ih =>
      unfold sortNat
      exact insertSortedNat_sorted ih

/-- C8: for every procedure type, the predicted duration is the per-type
default (30 for a type outside the table) unless at least 5 positive
historical samples of that type exist, in which case it is the median of
the ascending-sorted samples clamped to [10, 240]; the list the median is
taken over is a sorted permutation of the filtered history. -/
theorem predict_duration_spec (visits : List VisitProcedure) (procedureType : String) :
    (sortNat (durationSamples visits (normProcType procedureType))).Perm
      (rawDurationSamples visits (normProcType procedureType)) ∧
    (sortNat (durationSamples visits (normProcType procedureType))).Sorted (· ≤ ·) ∧
    (5 ≤ (rawDurationSamples visits (normProcType procedureType)).length →
      predictDurationMinutes visits procedureType =
        max 10 (min (medianOfSorted
          (sortNat (durationSamples visits (normProcType procedureType)))) 240) ∧
      10 ≤ predictDurationMinutes visits procedureType ∧
      predictDurationMinutes visits procedureType ≤ 240) ∧
    ((rawDurationSamples visits (normProcType procedureType)).length < 5 →
      predictDurationMinutes visits procedureType =
        defaultDurationFor (normProcType procedureType)) ∧
    (DEFAULT_DURATIONS_MIN.lookup (normProcType procedureType) = none →
      (rawDurationSamples visits (normProcType procedureType)).length < 5 →
      predictDurationMinutes visits procedureType = 30) := by
  have hperm : (sortNat (durationSamples visits (normProcType procedureType))).Perm
      (rawDurationSamples visits (normProcType procedureType)) :=
    (sortNat_perm _).trans (sortNat_perm _)
  have hlen := hperm.length_eq
  refine ⟨hperm, sortNat_sorted _, ?_, ?_, ?_⟩
  · intro h5
    have h5' : 5 ≤ (sortNat (durationSamples visits (normProcType procedureType))).length := by
      omega
    have heq : predictDurationMinutes visits procedureType =
        max 10 (min (medianOfSorted
          (sortNat (durationSamples visits (normProcType procedureType)))) 240) := by
      simp only [predictDurationMinutes, medianOfSorted]
      rw [if_pos h5']
    refine ⟨heq, ?_, ?_⟩
    · rw [heq]; exact le_max_left _ _
    · rw [heq]; exact max_le (by omega) (min_le_right _ _)
  · intro hlt
    have hlt' : ¬ 5 ≤ (sortNat (durationSamples visits (normProcType procedureType))).length := by
      omega
    simp only [predictDurationMinutes]
    rw [if_neg hlt']
  · intro hnone hlt
    have hlt' : ¬ 5 ≤ (sortNat (durationSamples visits (normProcType procedureType))).length := by
      omega
    simp only [predictDurationMinutes]
    rw [if_neg hlt']
    simp [defaultDurationFor, hnone]

/-- Witness for C8: with the 5 root-canal samples of `c8Visits`, the
prediction is clamped into [10, 240]. -/
theorem predict_duration_spec_witness :
    10 ≤ predictDurationMinutes c8Visits "root canal" ∧
    predictDurationMinutes c8Visits "root canal" ≤ 240 :=
  ⟨((predict_duration_spec c8Visits "root canal").2.2.1 (by decide)).2.1,
   ((predict_duration_spec c8Visits "root canal").2.2.1 (by decide)).2.2⟩

/- ===================================================================
Section 11: slot-search lemmas.
=================================================================== -/

theorem slotLoop_length_le (limit D E day : Nat) (free : Nat → Bool) :
    ∀ (fuel cur : Nat) (acc : List Slot), acc.length ≤ limit →
      (slotLoop limit D E day free fuel cur acc).length ≤ limit := by
  intro fuel
  induction fuel with
  | zero => intro cur acc h; simpa [slotLoop] using h
  | succ n ih =>
      intro cur acc h
      unfold slotLoop
      by_cases hc : cur + D ≤ E ∧ acc.length < limit
      · rw [if_pos hc]
        apply ih
        by_cases hf : free cur = true
        · rw [if_pos hf]
          simp only [List.length_append, List.length_cons, List.length_nil]
          omega
        · rw [if_neg hf]; exact h
      · rw [if_neg hc]; exact h

theorem slotLoop_prefix (limit D E day : Nat) (free : Nat → Bool) :
    ∀ (fuel cur : Nat) (acc : List Slot),
      ∃ t, slotLoop limit D E day free fuel cur acc = acc ++ t := by
  intro fuel
  induction fuel with
  | zero => intro cur acc; exact ⟨[], by simp [slotLoop]⟩
  | succ n ih =>
      intro cur acc
      unfold slotLoop
      by_cases hc : cur + D ≤ E ∧ acc.length < limit
      · rw [if_pos hc]
        by_cases hf : free cur = true
        · rw [if_pos hf]
          obtain ⟨t, ht⟩ := ih (cur + SLOT_STEP_MIN) (acc ++ [⟨day, cur, cur + D, D⟩])
          exact ⟨⟨day, cur, cur + D, D⟩ :: t, by rw [ht]; simp⟩
        · rw [if_neg hf]; exact ih _ _
      · rw [if_neg hc]; exact ⟨[], by simp⟩

theorem slotLoop_mem (limit D E day : Nat) (free : Nat → Bool) :
    ∀ (fuel cur : Nat) (acc : List Slot) (x : Slot),
      x ∈ slotLoop limit D E day free fuel cur acc →
      x ∈ acc ∨ ∃ i, x = ⟨day, cur + SLOT_STEP_MIN * i, cur + SLOT_STEP_MIN * i + D, D⟩ ∧
        free (cur + SLOT_STEP_MIN * i) = true ∧ cur + SLOT_STEP_MIN * i + D ≤ E := by
  intro fuel
  induction fuel with
  | zero => intro cur acc x hx; left; simpa [slotLoop] using hx
  | succ n ih =>
      intro cur acc x hx
      unfold slotLoop at hx
      by_cases hc : cur + D ≤ E ∧ acc.length < limit
      · rw [if_pos hc] at hx
        rcases ih (cur + SLOT_STEP_MIN) _ x hx with hacc | ⟨i, hxi, hfi, hle⟩
        · by_cases hf : free cur = true
          · rw [if_pos hf] at hacc
            rcases List.mem_append.mp hacc with h1 | h2
            · exact Or.inl h1
            · right
              refine ⟨0, ?_, ?_, ?_⟩
              · simpa using List.mem_singleton.mp h2
              · simpa using hf
              · simpa using hc.1
          · rw [if_neg hf] at hacc; exact Or.inl hacc
        · right
          have harith : cur + SLOT_STEP_MIN + SLOT_STEP_MIN * i =
              cur + SLOT_STEP_MIN * (i + 1) := by ring
          rw [harith] at hxi hfi hle
          exact ⟨i + 1, hxi, hfi, hle⟩
      · rw [if_neg hc] at hx; exact Or.inl hx

theorem slotLoop_complete (limit D E day : Nat) (free : Nat → Bool) (hlim : 0 < limit) :
    ∀ (fuel cur : Nat), E + 1 ≤ cur + SLOT_STEP_MIN * fuel →
      slotLoop limit D E day free fuel cur [] = [] →
      ∀ i, cur + SLOT_STEP_MIN * i + D ≤ E → free (cur + SLOT_STEP_MIN * i) = false := by
  intro fuel
  induction fuel with
  | zero =>
      intro cur hfuel _ i hi
      exfalso
      simp only [SLOT_STEP_MIN] at hfuel hi
      omega
  | succ n ih =>
      intro cur hfuel hempty i hi
      unfold slotLoop at hempty
      by_cases hc : cur + D ≤ E ∧ ([] : List Slot).length < limit
      · rw [if_pos hc] at hempty
        by_cases hf : free cur = true
        · rw [if_pos hf] at hempty
          obtain ⟨t, ht⟩ :=
            slotLoop_prefix limit D E day free n (cur + SLOT_STEP_MIN)
              ([] ++ [⟨day, cur, cur + D, D⟩])
          rw [ht] at hempty
          simp at hempty
        · rw [if_neg hf] at hempty
          have hf' : free cur = false := by
            revert hf; cases free cur <;> simp
          cases i with
          | zero => simpa using hf'
          | succ j =>
              have hfuel' : E + 1 ≤ (cur + SLOT_STEP_MIN) + SLOT_STEP_MIN * n := by
                simp only [SLOT_STEP_MIN] at hfuel ⊢; omega
              have hj : (cur + SLOT_STEP_MIN) + SLOT_STEP_MIN * j + D ≤ E := by
                simp only [SLOT_STEP_MIN] at hi ⊢; omega
              have := ih (cur + SLOT_STEP_MIN) hfuel' hempty j hj
              have harith : cur + SLOT_STEP_MIN + SLOT_STEP_MIN * j =
                  cur + SLOT_STEP_MIN * (j + 1) := by ring
              rw [harith] at this
              exact this
      · exfalso
        have hD : ¬ (cur + D ≤ E) := by
          intro hle
          exact hc ⟨hle, by simpa using hlim⟩
        simp only [SLOT_STEP_MIN] at hi
        omega

theorem beforeMinStart_false {minStart : Option Nat} {c : Nat}
    (h : beforeMinStart minStart c = false) : ∀ m, minStart = some m → m ≤ c := by
  intro m hm
  rw [hm] at h
  simp only [beforeMinStart, decide_eq_false_iff_not] at h
  omega

theorem isFreeCandidate_spec {now day E D : Nat} {minStart : Option Nat}
    {busy : List (Nat × Nat)} {c : Nat}
    (h : isFreeCandidate now day E D minStart busy c = true) :
    c + D ≤ E ∧
    (day = now / minutesPerDay → now + 2 ≤ c) ∧
    (∀ m, minStart = some m → m ≤ c) ∧
    (∀ w ∈ busy, overlapsB c (c + D) w.1 w.2 = false) := by
  unfold isFreeCandidate at h
  by_cases h1 : E < c + D
  · rw [if_pos h1] at h; cases h
  · rw [if_neg h1] at h
    by_cases h2 : (day == now / minutesPerDay && decide (c < now + 2)) = true
    · rw [if_pos h2] at h; cases h
    · rw [if_neg h2] at h
      by_cases h3 : beforeMinStart minStart c = true
      · rw [if_pos h3] at h; cases h
      · rw [if_neg h3] at h
        have h3' : beforeMinStart minStart c = false := by
          revert h3; cases beforeMinStart minStart c <;> simp
        refine ⟨by omega, ?_, beforeMinStart_false h3', ?_⟩
        · intro hday
          by_contra hlt
          apply h2
          simp only [hday, beq_self_eq_true, Bool.true_and, decide_eq_true_eq]
          omega
        · intro w hw
          have hany : (busy.any fun w => overlapsB c (c + D) w.1 w.2) = false := by
            revert h; cases busy.any fun w => overlapsB c (c + D) w.1 w.2 <;> simp
          by_contra hov
          have hov' : overlapsB c (c + D) w.1 w.2 = true := by
            revert hov; cases overlapsB c (c + D) w.1 w.2 <;> simp
          have : (busy.any fun w => overlapsB c (c + D) w.1 w.2) = true :=
            List.any_eq_true.mpr ⟨w, hw, hov'⟩
          rw [hany] at this
          exact absurd this (by decide)

theorem dayScan_length (appts : List Appt) (now : Nat) (p : SuggestParams) (k : Nat) :
    (dayScan appts now p k).length ≤ p.limit := by
  unfold dayScan
  by_cases hskip : dayScanSkip p k = true
  · rw [if_pos hskip]; simp
  · rw [if_neg hskip]
    exact slotLoop_length_le _ _ _ _ _ _ _ _ (by simp)

theorem dayScan_mem {appts : List Appt} {now : Nat} {p : SuggestParams} {k : Nat} {s : Slot}
    (hs : s ∈ dayScan appts now p k) :
    ∃ i, s = ⟨p.baseDay + k, dayInitStart p k + SLOT_STEP_MIN * i,
        dayInitStart p k + SLOT_STEP_MIN * i + p.durationMin, p.durationMin⟩ ∧
      isFreeCandidate now (p.baseDay + k) (dayEndAbs p k) p.durationMin p.minStart
        (dayBusy appts p k) (dayInitStart p k + SLOT_STEP_MIN * i) = true ∧
      dayInitStart p k + SLOT_STEP_MIN * i + p.durationMin ≤ dayEndAbs p k := by
  unfold dayScan at hs
  by_cases hskip : dayScanSkip p k = true
  · rw [if_pos hskip] at hs; cases hs
  · rw [if_neg hskip] at hs
    rcases slotLoop_mem _ _ _ _ _ _ _ _ _ hs with h | h
    · cases h
    · exact h

theorem dayScan_complete {appts : List Appt} {now : Nat} {p : SuggestParams} {j : Nat}
    (hlim : 0 < p.limit) (hempty : dayScan appts now p j = []) :
    ∀ i, dayInitStart p j + SLOT_STEP_MIN * i + p.durationMin ≤ dayEndAbs p j →
      isFreeCandidate now (p.baseDay + j) (dayEndAbs p j) p.durationMin p.minStart
        (dayBusy appts p j) (dayInitStart p j + SLOT_STEP_MIN * i) = false := by
  intro i hile
  unfold dayScan at hempty
  by_cases hskip : dayScanSkip p j = true
  · obtain ⟨m, hms, hlt⟩ : ∃ m, p.minStart = some m ∧ p.baseDay + j < m / minutesPerDay := by
      revert hskip
      unfold dayScanSkip
      cases p.minStart with
      | none => intro hc; exact absurd hc (by simp)
      | some m => intro hc; exact ⟨m, rfl, by simpa using hc⟩
    have hm4 : (m / minutesPerDay) * minutesPerDay ≤ m := Nat.div_mul_le_self m minutesPerDay
    have hm3 : (p.baseDay + j + 1) * minutesPerDay ≤ (m / minutesPerDay) * minutesPerDay :=
      Nat.mul_le_mul_right _ (by omega)
    have hcm : dayInitStart p j + SLOT_STEP_MIN * i < m := by
      have hE : dayEndAbs p j = (p.baseDay + j) * minutesPerDay + WORKDAY_END_MIN := rfl
      simp only [minutesPerDay, WORKDAY_END_MIN] at hm4 hm3 hE
      omega
    unfold isFreeCandidate
    rw [if_neg (by omega :
      ¬ dayEndAbs p j < dayInitStart p j + SLOT_STEP_MIN * i + p.durationMin)]
    by_cases h2 : ((p.baseDay + j) == now / minutesPerDay &&
        decide (dayInitStart p j + SLOT_STEP_MIN * i < now + 2)) = true
    · rw [if_pos h2]
    · rw [if_neg h2]
      rw [if_pos (show beforeMinStart p.minStart
          (dayInitStart p j + SLOT_STEP_MIN * i) = true by
        rw [hms]; simpa [beforeMinStart] using hcm)]
  · rw [if_neg hskip] at hempty
    exact slotLoop_complete p.limit p.durationMin (dayEndAbs p j) (p.baseDay + j) _ hlim
      (dayEndAbs p j + 1) (dayInitStart p j)
      (by simp only [SLOT_STEP_MIN]; omega) hempty i hile

theorem suggestGo_range' (appts : List Appt) (now : Nat) (p : SuggestParams) :
    ∀ (n a : Nat),
      (suggestGo appts now p (List.range' a n) = [] ∧
        ∀ j, a ≤ j → j < a + n → dayScan appts now p j = []) ∨
      (∃ k, a ≤ k ∧ k < a + n ∧ dayScan appts now p k ≠ [] ∧
        suggestGo appts now p (List.range' a n) = dayScan appts now p k ∧
        ∀ j, a ≤ j → j < k → dayScan appts now p j = []) := by
  intro n
  induction n with
  | zero =>
      intro a
      left
      refine ⟨by simp [suggestGo], ?_⟩
      intro j h1 h2
      omega
  | succ n ih =>
      intro a
      have hr : List.range' a (n + 1) = a :: List.range' (a + 1) n := rfl
      have hstep : suggestGo appts now p (List.range' a (n + 1)) =
          (if (dayScan appts now p a).isEmpty then
            suggestGo appts now p (List.range' (a + 1) n)
          else dayScan appts now p a) := by
        rw [hr]
        simp only [suggestGo]
      by_cases hout : dayScan appts now p a = []
      · have hisE : (dayScan appts now p a).isEmpty = true := by simp [hout]
        rcases ih (a + 1) with ⟨he, hall⟩ | ⟨k, hk1, hk2, hkne, hkeq, hkall⟩
        · left
          refine ⟨by rw [hstep, if_pos hisE]; exact he, ?_⟩
          intro j h1 h2
          rcases Nat.eq_or_lt_of_le h1 with rfl | h1'
          · exact hout
          · exact hall j h1' (by omega)
        · right
          refine ⟨k, by omega, by omega, hkne, by rw [hstep, if_pos hisE]; exact hkeq, ?_⟩
          intro j h1 h2
          rcases Nat.eq_or_lt_of_le h1 with rfl | h1'
          · exact hout
          · exact hkall j h1' h2
      · have hisE : (dayScan appts now p a).isEmpty = false := by
          cases hl : dayScan appts now p a with
          | nil => exact absurd hl hout
          | cons y ys => simp
        right
        refine ⟨a, le_refl a, by omega, hout, ?_, ?_⟩
        · rw [hstep, hisE]
          simp
        · intro j h1 h2
          omega

theorem suggestSlots_eq_range' (appts : List Appt) (now : Nat) (p : SuggestParams) :
    suggestSlots appts now p = suggestGo appts now p (List.range' 0 (p.daysAhead + 1)) := by
  unfold suggestSlots
  rw [List.range_eq_range']

theorem suggestSlots_min_start {appts : List Appt} {now : Nat} {p : SuggestParams} {m : Nat}
    (hm : p.minStart = some m) :
    ∀ s ∈ suggestSlots appts now p, m ≤ s.startAbs := by
  intro s hs
  rw [suggestSlots_eq_range'] at hs
  rcases suggestGo_range' appts now p (p.daysAhead + 1) 0 with ⟨he, _⟩ | ⟨k, _, _, _, hkeq, _⟩
  · rw [he] at hs; cases hs
  · rw [hkeq] at hs
    obtain ⟨i, rfl, hfree, _⟩ := dayScan_mem hs
    exact (isFreeCandidate_spec hfree).2.2.1 m hm

/- ===================================================================
Section 12: the slot-suggestion and healing-floor claims.
=================================================================== -/

/-- C5: the slot search returns at most `limit` slots; when it returns any,
all of them lie on one day `baseDay + k` within `daysAhead`, `k` being the
first offset whose scan produced a slot (every earlier day's scan is empty,
and — whenever `limit` is positive — every stepped candidate of every
earlier day is rejected by `is_free`); each returned slot is generated by
stepping at `SLOT_STEP_MIN` granularity from the day's initial start (the
09:00 working-day start, raised to the requested start time on day 0 only),
ends exactly `durationMin` later without passing the 18:00 working-day end,
is not earlier than `now + 2` minutes when its day is today, is not earlier
than the `min_start_dt` floor, and overlaps no collected busy window. -/
theorem suggest_slots_spec (appts : List Appt) (now : Nat) (p : SuggestParams) :
    (suggestSlots appts now p).length ≤ p.limit ∧
    (suggestSlots appts now p = [] ∨
      ∃ k, k ≤ p.daysAhead ∧
        dayScan appts now p k ≠ [] ∧
        suggestSlots appts now p = dayScan appts now p k ∧
        (∀ j, j < k → dayScan appts now p j = []) ∧
        (∀ s ∈ suggestSlots appts now p,
          s.day = p.baseDay + k ∧
          s.durationMin = p.durationMin ∧
          s.endAbs = s.startAbs + p.durationMin ∧
          (∃ i, s.startAbs = dayInitStart p k + SLOT_STEP_MIN * i) ∧
          s.endAbs ≤ dayEndAbs p k ∧
          (p.baseDay + k = now / minutesPerDay → now + 2 ≤ s.startAbs) ∧
          (∀ m, p.minStart = some m → m ≤ s.startAbs) ∧
          (∀ w ∈ dayBusy appts p k, overlapsB s.startAbs s.endAbs w.1 w.2 = false)) ∧
        (0 < p.limit → ∀ j, j < k → ∀ i,
          dayInitStart p j + SLOT_STEP_MIN * i + p.durationMin ≤ dayEndAbs p j →
          isFreeCandidate now (p.baseDay + j) (dayEndAbs p j) p.durationMin p.minStart
            (dayBusy appts p j) (dayInitStart p j + SLOT_STEP_MIN * i) = false)) := by
  rcases suggestGo_range' appts now p (p.daysAhead + 1) 0 with ⟨he, _⟩ |
    ⟨k, _, hk1, hkne, hkeq, hkall⟩
  · constructor
    · rw [suggestSlots_eq_range', he]; simp
    · left; rw [suggestSlots_eq_range']; exact he
  · have hres : suggestSlots appts now p = dayScan appts now p k := by
      rw [suggestSlots_eq_range']; exact hkeq
    constructor
    · rw [hres]; exact dayScan_length appts now p k
    · right
      refine ⟨k, by omega, hkne, hres, fun j hj => hkall j (by omega) hj, ?_, ?_⟩
      · intro s hsmem
        rw [hres] at hsmem
        obtain ⟨i, rfl, hfree, hle⟩ := dayScan_mem hsmem
        obtain ⟨hA, hB, hC, hD⟩ := isFreeCandidate_spec hfree
        exact ⟨rfl, rfl, rfl, ⟨i, rfl⟩, hA, hB, hC, hD⟩
      · intro hlim j hj i hile
        exact dayScan_complete hlim (hkall j (by omega) hj) i hile

/-- Witness for C5: the search of `sParams` over `sAppts` returns at most
`limit` slots. -/
theorem suggest_slots_spec_witness :
    (suggestSlots sAppts 1000 sParams).length ≤ sParams.limit :=
  (suggest_slots_spec sAppts 1000 sParams).1

/-- C6: for an appointment linked to a case, the minimum permissible start
is the reference instant plus the stage-mapped healing days, clipped to
never be earlier than now; the stage mapped to 7 days with reference
2024-01-01 yields the floor 2024-01-08 (or now, if later); a requested
start earlier than the floor is clamped forward to it on creation; and no
suggested slot starts earlier than the floor. -/
theorem case_min_start_floor (caseId : Nat) (stage : Option String)
    (referenceAbs nowAbs startAbs m : Nat) (appts : List Appt) (now : Nat)
    (p : SuggestParams) (hcase : caseId ≠ 0) (hm : p.minStart = some m) :
    calculateCaseMinStart caseId stage referenceAbs nowAbs =
      some (max (referenceAbs + caseStageHealingDays stage * minutesPerDay) nowAbs) ∧
    caseStageHealingDays (some "WAITING_ON_PATIENT") = 7 ∧
    calculateCaseMinStart caseId (some "WAITING_ON_PATIENT")
        (day20240101 * minutesPerDay) nowAbs =
      some (max (day20240108 * minutesPerDay) nowAbs) ∧
    clampStartToMin startAbs (some m) = max startAbs m ∧
    m ≤ clampStartToMin startAbs (some m) ∧
    (∀ s ∈ suggestSlots appts now p, m ≤ s.startAbs) := by
  have hgen : ∀ (st : Option String) (ref : Nat),
      calculateCaseMinStart caseId st ref nowAbs =
        some (max (ref + caseStageHealingDays st * minutesPerDay) nowAbs) := by
    intro st ref
    unfold calculateCaseMinStart
    rw [if_neg (by simpa using hcase)]
    simp only [Option.some.injEq]
    split <;> omega
  refine ⟨hgen stage referenceAbs, by decide, ?_, ?_, ?_, suggestSlots_min_start hm⟩
  · rw [hgen]
    rw [show day20240108 * minutesPerDay =
      day20240101 * minutesPerDay +
        caseStageHealingDays (some "WAITING_ON_PATIENT") * minutesPerDay by decide]
  · simp only [clampStartToMin]
    split <;> omega
  · simp only [clampStartToMin]
    split <;> omega

/-- Witness for C6: case 5 in stage WAITING_ON_PATIENT referenced at
2024-01-01 has its floor at 2024-01-08, and the first slot the floored
search of `sParamsFloor` returns does not start before the 11:00 floor. -/
theorem case_min_start_floor_witness :
    calculateCaseMinStart 5 (some "WAITING_ON_PATIENT") (day20240101 * minutesPerDay) 0 =
      some (max (day20240108 * minutesPerDay) 0) ∧
    100 * minutesPerDay + 660 ≤
      (⟨100, 144660, 144690, 30⟩ : Slot).startAbs :=
  ⟨(case_min_start_floor 5 (some "WAITING_ON_PATIENT") (day20240101 * minutesPerDay) 0 0
      (100 * minutesPerDay + 660) sAppts 1000 sParamsFloor (by decide) (by decide)).2.2.1,
   (case_min_start_floor 5 (some "WAITING_ON_PATIENT") (day20240101 * minutesPerDay) 0 0
      (100 * minutesPerDay + 660) sAppts 1000 sParamsFloor (by decide)
      (by decide)).2.2.2.2.2 ⟨100, 144660, 144690, 30⟩ (by decide)⟩

end DentraOS
